import Mathlib

/-!
Verification of the IYC schedule backend (src/main.py) against its
natural-language specification.

The Python program is a CRUD service over a two-level structure: a schedule
is a JSON list of day objects, each day holding a list of event objects.
We embed the data model and the request handlers as pure Lean functions.
Machine-level conventions of the embedding:

* Python dicts built by the handlers have a fixed schema, so a stored event
  is a structure whose optional keys (`link`, `hasOutline`, `outlineFile`)
  are `Option` fields; `none` means the key is absent from the dict.
* Python truthiness on `Optional[str]` / `Optional[bool]` is modelled by
  `truthyStr` / `truthyBool`.
* Regex character classes `[^a-zA-Z0-9]` and `\d` from main.py are ASCII
  classes; `Char.isAlphanum` / `Char.isDigit` in Lean are exactly the ASCII
  predicates, and `Char.toLower` is ASCII lowercasing, matching `.lower()`
  on the ASCII-only strings these handlers produce.
* The uploads directory tree is modelled as an association list from
  directory name (an event identifier) to the list of file names inside.
-/

/-- Event payload of the `PUT /api/schedule/event/{day_id}/{event_id}` route
(pydantic model `Event` in main.py): `time`, `name`, optional `link`,
optional `hasOutline` (pydantic default `False`), optional `outlineFile`. -/
structure Event where
  time : String
  name : String
  link : Option String := none
  hasOutline : Option Bool := some false
  outlineFile : Option String := none
deriving DecidableEq, Repr

/-- Payload of `POST /api/schedule/day` (pydantic model `DayCreate`). -/
structure DayCreate where
  day : String
  date : String
deriving DecidableEq, Repr

/-- Payload of `POST /api/schedule/event` (pydantic model `EventCreate`). -/
structure EventCreate where
  day_id : String
  time : String
  name : String
  link : Option String := none
  hasOutline : Option Bool := some false
deriving DecidableEq, Repr

/-- An event dict as persisted in schedule.json: keys `id`, `time`, `name`
always present; `link`, `hasOutline`, `outlineFile` present only when the
handlers stored them (`none` = key absent). -/
structure StoredEvent where
  id : String
  time : String
  name : String
  link : Option String := none
  hasOutline : Option Bool := none
  outlineFile : Option String := none
deriving DecidableEq, Repr

/-- A day dict as persisted in schedule.json. -/
structure StoredDay where
  id : String
  day : String
  date : String
  events : List StoredEvent := []
deriving DecidableEq, Repr

/-- The persisted document: a JSON list of day objects. -/
abbrev Schedule := List StoredDay

/-- Errors raised by the handlers: `conflict` is HTTP 400, the two
not-found errors are HTTP 404, `osError` is an uncaught Python `OSError`
escaping the store layer. -/
inductive ApiError where
  | conflict
  | dayNotFound
  | eventNotFound
  | osError
deriving DecidableEq, Repr

/-- Python truthiness of an `Optional[str]` value: `None` and the empty
string are falsy. -/
def truthyStr : Option String → Bool
  | none => false
  | some s => s ≠ ""

/-- Python truthiness of an `Optional[bool]` value: `None` and `False` are
falsy. -/
def truthyBool : Option Bool → Bool
  | none => false
  | some b => b

/-- The label with a single final newline removed, when it has one:
Python's `$` anchor (outside MULTILINE mode) matches at the end of the
string and also just before a newline that ends the string, so
`re.search(r'(\d+)$', s)` scans for digits at the end of this body. -/
def stripFinalNewline (s : String) : String :=
  match s.data.reverse with
  | '\n' :: rest => rest.reverse.asString
  | _ => s

/-- The match of the regex search `(\d+)$` in `generate_day_id`, as a
character list: the maximal run of ASCII digits ending at the end of the
label or just before a final newline (the two positions `$` matches);
empty when the regex does not match. -/
def trailingDigitRun (s : String) : List Char :=
  ((stripFinalNewline s).data.reverse.takeWhile Char.isDigit).reverse

/-- `generate_day_id` from main.py: the trailing digit run when the regex
`(\d+)$` matches, otherwise `re.sub(r'[^a-zA-Z0-9]', '', day_str).lower()`
applied to the whole label, i.e. the label with non-alphanumeric
characters removed, lowercased. -/
def generate_day_id (day_str : String) : String :=
  let t := trailingDigitRun day_str
  if t.isEmpty then
    ((day_str.data.filter Char.isAlphanum).map Char.toLower).asString
  else
    t.asString

/-- One step of `re.sub(r'[^a-zA-Z0-9]', '-', s)`: a non-alphanumeric
character becomes a hyphen. -/
def subChar (c : Char) : Char :=
  if c.isAlphanum then c else '-'

/-- `re.sub(r'-+', '-', s)` on a character list: collapse every run of
hyphens to a single hyphen. -/
def collapseDashes : List Char → List Char
  | [] => []
  | [c] => [c]
  | a :: b :: rest =>
    if a = '-' ∧ b = '-' then collapseDashes (b :: rest)
    else a :: collapseDashes (b :: rest)

/-- Python `str.strip('-')` on a character list: drop leading and trailing
hyphens. -/
def stripDashes (l : List Char) : List Char :=
  ((l.dropWhile (· = '-')).reverse.dropWhile (· = '-')).reverse

/-- `generate_event_id` from main.py: slugify the lowercased event name
(non-alphanumerics to hyphens, hyphen runs collapsed, ends stripped) and
attach the owning day's identifier with a hyphen. -/
def generate_event_id (day_id : String) (event_name : String) : String :=
  let slug := stripDashes (collapseDashes ((event_name.data.map Char.toLower).map subChar))
  day_id ++ "-" ++ slug.asString

/-- The spec's description of the event slug: every maximal run of
non-alphanumeric characters becomes a single hyphen. Stated independently
of the two-pass substitution the code performs, to be compared with it. -/
def replaceRuns : List Char → List Char
  | [] => []
  | [c] => if c.isAlphanum then [c] else ['-']
  | a :: b :: rest =>
    if a.isAlphanum then a :: replaceRuns (b :: rest)
    else if b.isAlphanum then '-' :: replaceRuns (b :: rest)
    else replaceRuns (b :: rest)

/-- Whether a label ends in an ASCII digit: the condition under which the
spec says the trailing-digit branch of `generate_day_id` applies. -/
def endsInDigit (s : String) : Bool :=
  match s.data.getLast? with
  | some c => c.isDigit
  | none => false

/-- The spec's characterisation of the day identifier in the digit branch:
`t` is a non-empty all-digit trailing segment of `s` that is maximal (it is
all of `s`, or the character just before it is not a digit). -/
def isMaxTrailingDigitRun (s t : String) : Prop :=
  t.data ≠ [] ∧ (∀ c ∈ t.data, c.isDigit = true) ∧
  ∃ u, s.data = u ++ t.data ∧
    (u = [] ∨ ∃ c, u.getLast? = some c ∧ c.isDigit = false)

/-- The uploads directory: an association list from directory name (an
event identifier) to the file names inside that directory. -/
abbrev UploadsFS := List (String × List String)

/-- Directory existence test (`Path.exists`). -/
def fsExists (fs : UploadsFS) (d : String) : Bool :=
  fs.any (fun p => p.1 = d)

/-- Contents of a directory, empty when the directory is absent. -/
def fsGet (fs : UploadsFS) (d : String) : List String :=
  match fs.find? (fun p => p.1 = d) with
  | some p => p.2
  | none => []

/-- Remove a directory and its contents (`shutil.rmtree`, or `os.rmdir` of
a directory just emptied); a no-op when the directory is absent. -/
def fsErase (fs : UploadsFS) (d : String) : UploadsFS :=
  fs.filter (fun p => ¬ p.1 = d)

/-- Create or overwrite a directory entry with the given contents. -/
def fsSet (fs : UploadsFS) (d : String) (files : List String) : UploadsFS :=
  fsErase fs d ++ [(d, files)]

/-- The migration block of `update_event`: `os.makedirs(new_dir)`, then
`shutil.move` of every entry of the old directory into the new one
(same-named files overwritten), then `os.rmdir` of the now-empty old
directory. -/
def fsMove (fs : UploadsFS) (old : String) (new : String) : UploadsFS :=
  let moved := fsGet fs old
  let target := fsGet fs new
  fsSet (fsErase fs old) new (target.filter (fun f => ¬ f ∈ moved) ++ moved)

/-- State of the backing file data/schedule.json. `missing`: the file does
not exist. `unreadable`: the file exists but `open` raises an `OSError`
(e.g. permissions). `malformed`: the file opens but `json.load` raises
`json.JSONDecodeError`. `content s`: the file holds the JSON serialization
of the schedule `s`. -/
inductive FileState where
  | missing
  | unreadable
  | malformed
  | content (s : Schedule)
deriving DecidableEq, Repr

/-- `read_schedule` from main.py, including the `initialize_data_file`
call: a missing file is first created holding `[]`; then the file is
opened (an unreadable file makes `open` raise an `OSError`, which no
handler catches) and parsed, a `json.JSONDecodeError` being caught and
turned into the empty schedule. Returns the file state after the call
together with the outcome. -/
def read_schedule : FileState → FileState × Except ApiError Schedule
  | .missing => (.content [], .ok [])
  | .unreadable => (.unreadable, .error .osError)
  | .malformed => (.malformed, .ok [])
  | .content s => (.content s, .ok s)

/-- `write_schedule` from main.py: serialize the whole schedule and
overwrite the backing file. -/
def write_schedule (s : Schedule) (_fs : FileState) : FileState :=
  FileState.content s

/-- JSON values, as read back by `json.load`: the fragment the schedule
file uses (strings, booleans, arrays, objects with ordered keys). -/
inductive Json where
  | str (s : String)
  | bool (b : Bool)
  | arr (elems : List Json)
  | obj (fields : List (String × Json))

/-- The JSON object `json.dump` writes for a stored event dict: keys in
the insertion order the handlers use, optional keys present only when the
field is set. -/
def eventToJson (e : StoredEvent) : Json :=
  Json.obj
    ([("id", Json.str e.id), ("time", Json.str e.time), ("name", Json.str e.name)]
      ++ (match e.link with
          | some l => [("link", Json.str l)]
          | none => [])
      ++ (match e.hasOutline with
          | some b => [("hasOutline", Json.bool b)]
          | none => [])
      ++ (match e.outlineFile with
          | some f => [("outlineFile", Json.str f)]
          | none => []))

/-- The JSON object written for a day dict. -/
def dayToJson (d : StoredDay) : Json :=
  Json.obj
    [("id", Json.str d.id), ("day", Json.str d.day), ("date", Json.str d.date),
     ("events", Json.arr (d.events.map eventToJson))]

/-- The JSON document written for the whole schedule. -/
def scheduleToJson (s : Schedule) : Json :=
  Json.arr (s.map dayToJson)

/-- Read an optional `link` key at the current position of an event
object. -/
def takeLinkField : List (String × Json) → Option String × List (String × Json)
  | ("link", Json.str l) :: rest => (some l, rest)
  | fields => (none, fields)

/-- Read an optional `hasOutline` key at the current position of an event
object. -/
def takeHasOutlineField : List (String × Json) → Option Bool × List (String × Json)
  | ("hasOutline", Json.bool b) :: rest => (some b, rest)
  | fields => (none, fields)

/-- Read an optional `outlineFile` key at the current position of an event
object. -/
def takeOutlineFileField : List (String × Json) → Option String × List (String × Json)
  | ("outlineFile", Json.str f) :: rest => (some f, rest)
  | fields => (none, fields)

/-- Decode an event object of the shape `eventToJson` writes. -/
def eventFromJson : Json → Option StoredEvent
  | Json.obj (("id", Json.str i) :: ("time", Json.str t) :: ("name", Json.str n) :: rest) =>
    let p1 := takeLinkField rest
    let p2 := takeHasOutlineField p1.2
    let p3 := takeOutlineFileField p2.2
    if p3.2.isEmpty then
      some { id := i, time := t, name := n,
             link := p1.1, hasOutline := p2.1, outlineFile := p3.1 }
    else none
  | _ => none

/-- Decode a list of JSON values elementwise, failing if any element
fails. -/
def decodeList (f : Json → Option α) : List Json → Option (List α)
  | [] => some []
  | j :: rest =>
    match f j, decodeList f rest with
    | some a, some l => some (a :: l)
    | _, _ => none

/-- Decode a day object of the shape `dayToJson` writes. -/
def dayFromJson : Json → Option StoredDay
  | Json.obj [("id", Json.str i), ("day", Json.str d), ("date", Json.str dt),
              ("events", Json.arr es)] =>
    match decodeList eventFromJson es with
    | some events => some { id := i, day := d, date := dt, events := events }
    | none => none
  | _ => none

/-- Decode a schedule document of the shape `scheduleToJson` writes. -/
def scheduleFromJson : Json → Option Schedule
  | Json.arr ds => decodeList dayFromJson ds
  | _ => none

/-- The pure mutation of the `add_day` handler: Conflict (HTTP 400) when
some existing day shares the `day` label or the `date` label, otherwise
append a day with the generated identifier and an empty event list. -/
def add_day_pure (schedule : Schedule) (day_data : DayCreate) : Except ApiError Schedule :=
  if ∃ d ∈ schedule, d.day = day_data.day ∨ d.date = day_data.date then
    .error .conflict
  else
    .ok (schedule ++ [{ id := generate_day_id day_data.day,
                        day := day_data.day, date := day_data.date, events := [] }])

/-- The `add_day` handler end to end: `read_schedule`, the duplicate
check, `write_schedule` on success. Returns the backing-file state after
the request together with the response. -/
def add_day (day_data : DayCreate) (st : FileState) : FileState × Except ApiError Schedule :=
  match read_schedule st with
  | (st', .error e) => (st', .error e)
  | (st', .ok schedule) =>
    match add_day_pure schedule day_data with
    | .error e => (st', .error e)
    | .ok schedule' => (write_schedule schedule' st', .ok schedule')

/-- The event dict built by the `add_event` handler: generated identifier,
`time` and `name` always stored, `link` and `hasOutline` stored only when
the submitted values are truthy. -/
def mkStoredEvent (stored_day_id : String) (event_data : EventCreate) : StoredEvent :=
  { id := generate_event_id stored_day_id event_data.name,
    time := event_data.time,
    name := event_data.name,
    link := if truthyStr event_data.link then event_data.link else none,
    hasOutline := if truthyBool event_data.hasOutline then event_data.hasOutline else none,
    outlineFile := none }

/-- The pure mutation of the `add_event` handler: scan for the first day
whose `id` matches `event_data.day_id` (NotFound when none does); inside
it, Conflict when an event with the submitted name exists, otherwise
append the new event dict to that day's list. -/
def add_event (event_data : EventCreate) : Schedule → Except ApiError Schedule
  | [] => .error .dayNotFound
  | d :: rest =>
    if d.id = event_data.day_id then
      if ∃ e ∈ d.events, e.name = event_data.name then
        .error .conflict
      else
        .ok ({ d with events := d.events ++ [mkStoredEvent d.id event_data] } :: rest)
    else
      match add_event event_data rest with
      | .error e => .error e
      | .ok s => .ok (d :: s)

/-- The loop body of `delete_day` that removes the attachment directory of
every event of the deleted day (`shutil.rmtree` when the directory
exists). -/
def removeEventDirs (events : List StoredEvent) (fs : UploadsFS) : UploadsFS :=
  events.foldl (fun acc e => fsErase acc e.id) fs

/-- The `delete_day` handler's mutation: scan for the first day whose `id`
matches (NotFound when none does), delete the attachment directories of
all its events, and remove the day from the schedule. -/
def delete_day (day_id : String) (fs : UploadsFS) : Schedule → Except ApiError (Schedule × UploadsFS)
  | [] => .error .dayNotFound
  | d :: rest =>
    if d.id = day_id then
      .ok (rest, removeEventDirs d.events fs)
    else
      match delete_day day_id fs rest with
      | .error e => .error e
      | .ok (s, fs') => .ok (d :: s, fs')

/-- The name-conflict condition of `update_event`: the submitted name
differs from the stored one and some event of the day (other than the one
being updated, compared by dict value as Python `!=` does) already carries
the submitted name. -/
abbrev hasNameConflict (allEvents : List StoredEvent) (ev : Event) (existing : StoredEvent) : Prop :=
  existing.name ≠ ev.name ∧ ∃ o ∈ allEvents, o.name = ev.name ∧ o ≠ existing

/-- The identifier `update_event` stores: regenerated from the stored
day's `id` and the submitted name exactly when the name changed, the
path-parameter identifier otherwise. -/
def newIdFor (stored_day_id : String) (event_id : String) (existing : StoredEvent) (ev : Event) : String :=
  if existing.name = ev.name then event_id
  else generate_event_id stored_day_id ev.name

/-- The event dict built by `update_event` before the file-migration
block: `link` and `hasOutline` kept only when truthy, the existing
`outlineFile` carried over when present and `hasOutline` was submitted
truthy, a truthy submitted `outlineFile` overriding it. -/
def buildEventDict (new_event_id : String) (ev : Event) (existing : StoredEvent) : StoredEvent :=
  let base : StoredEvent :=
    { id := new_event_id, time := ev.time, name := ev.name,
      link := if truthyStr ev.link then ev.link else none,
      hasOutline := if truthyBool ev.hasOutline then ev.hasOutline else none,
      outlineFile := none }
  let withKept :=
    if existing.outlineFile.isSome ∧ truthyBool ev.hasOutline then
      { base with outlineFile := existing.outlineFile }
    else base
  if truthyStr ev.outlineFile then
    { withKept with outlineFile := ev.outlineFile }
  else withKept

/-- Python `str.split("/")` on a character list: split at every slash,
keeping empty components, the empty string splitting to one empty
component. -/
def splitOnSlash : List Char → List (List Char)
  | [] => [[]]
  | c :: rest =>
    if c = '/' then [] :: splitOnSlash rest
    else
      match splitOnSlash rest with
      | [] => [[c]]
      | g :: gs => (c :: g) :: gs

/-- Last element of a list of components, empty when there is none. -/
def lastComponentD : List (List Char) → List Char
  | [] => []
  | [x] => x
  | _ :: rest => lastComponentD rest

/-- Python `path.split("/")[-1]`: the last slash-separated component. -/
def lastPathComponent (p : String) : String :=
  (lastComponentD (splitOnSlash p.data)).asString

/-- The file-migration block of `update_event`: it runs only when the
identifier changed AND the new dict has an `outlineFile` key AND the old
attachment directory exists; it then moves the directory contents and
rewrites the stored path (the path rewrite itself guarded by the value
being truthy). -/
def migrateFiles (event_id : String) (new_event_id : String) (dict : StoredEvent)
    (fs : UploadsFS) : StoredEvent × UploadsFS :=
  if new_event_id ≠ event_id ∧ dict.outlineFile.isSome then
    if fsExists fs event_id then
      let fs' := fsMove fs event_id new_event_id
      let dict' :=
        match dict.outlineFile with
        | some p =>
          if p ≠ "" then
            let newPath := "/uploads/" ++ new_event_id ++ "/" ++ lastPathComponent p
            { dict with outlineFile := some newPath }
          else dict
        | none => dict
      (dict', fs')
    else (dict, fs)
  else (dict, fs)

/-- The updated record and uploads state `update_event` produces for the
located event on the non-conflicting path. -/
def updatedPair (stored_day_id : String) (event_id : String) (ev : Event)
    (existing : StoredEvent) (fs : UploadsFS) : StoredEvent × UploadsFS :=
  migrateFiles event_id (newIdFor stored_day_id event_id existing ev)
    (buildEventDict (newIdFor stored_day_id event_id existing ev) ev existing) fs

/-- The per-event step of `update_event` once the event is located:
Conflict check against all events of the day, then dict construction and
file migration. -/
def updateExisting (stored_day_id : String) (allEvents : List StoredEvent)
    (event_id : String) (ev : Event) (existing : StoredEvent) (fs : UploadsFS) :
    Except ApiError (StoredEvent × UploadsFS) :=
  if hasNameConflict allEvents ev existing then
    .error .conflict
  else
    .ok (updatedPair stored_day_id event_id ev existing fs)

/-- The inner loop of `update_event`: scan the day's event list for the
first event whose `id` matches, replace it in place (NotFound when none
matches). `allEvents` is the full list of the day, against which the
conflict check runs. -/
def updateEventsList (stored_day_id : String) (allEvents : List StoredEvent)
    (event_id : String) (ev : Event) (fs : UploadsFS) :
    List StoredEvent → Except ApiError (List StoredEvent × UploadsFS)
  | [] => .error .eventNotFound
  | e :: rest =>
    if e.id = event_id then
      match updateExisting stored_day_id allEvents event_id ev e fs with
      | .error err => .error err
      | .ok (e', fs') => .ok (e' :: rest, fs')
    else
      match updateEventsList stored_day_id allEvents event_id ev fs rest with
      | .error err => .error err
      | .ok (l, fs') => .ok (e :: l, fs')

/-- The `update_event` handler's mutation: scan for the first day whose
`id` matches the path parameter (NotFound after the loop when none does),
and update the located event inside it. -/
def update_event (day_id : String) (event_id : String) (ev : Event) (fs : UploadsFS) :
    Schedule → Except ApiError (Schedule × UploadsFS)
  | [] => .error .dayNotFound
  | d :: rest =>
    if d.id = day_id then
      match updateEventsList d.id d.events event_id ev fs d.events with
      | .error err => .error err
      | .ok (es, fs') => .ok ({ d with events := es } :: rest, fs')
    else
      match update_event day_id event_id ev fs rest with
      | .error err => .error err
      | .ok (s, fs') => .ok (d :: s, fs')

/-! ## Helper lemmas -/

theorem data_asString (l : List Char) : (l.asString).data = l := rfl

theorem head?_dropWhile_eq_some_false {α} (p : α → Bool) (l : List α) (c : α)
    (h : (l.dropWhile p).head? = some c) : p c = false := by
  have hm := List.head?_dropWhile_not p l
  rw [h] at hm
  exact hm

theorem subChar_of_alnum {c : Char} (h : c.isAlphanum = true) : subChar c = c := by
  simp [subChar, h]

theorem subChar_of_not_alnum {c : Char} (h : ¬ c.isAlphanum = true) : subChar c = '-' := by
  simp [subChar, h]

theorem ne_dash_of_alnum {c : Char} (h : c.isAlphanum = true) : c ≠ '-' := by
  intro e
  subst e
  exact absurd h (by decide)

theorem collapseDashes_map_subChar (l : List Char) :
    collapseDashes (l.map subChar) = replaceRuns l := by
  induction l with
  | nil => rfl
  | cons a tl ih =>
    cases tl with
    | nil =>
      by_cases ha : a.isAlphanum = true
      · simp [collapseDashes, replaceRuns, subChar_of_alnum ha, ha]
      · simp [collapseDashes, replaceRuns, subChar_of_not_alnum ha, ha]
    | cons b rest =>
      simp only [List.map_cons] at ih ⊢
      by_cases ha : a.isAlphanum = true
      · rw [subChar_of_alnum ha]
        have hne : ¬(a = '-' ∧ subChar b = '-') := fun hand => ne_dash_of_alnum ha hand.1
        rw [collapseDashes, if_neg hne, ih, replaceRuns, if_pos ha]
      · rw [subChar_of_not_alnum ha]
        by_cases hb : b.isAlphanum = true
        · have hne : ¬('-' = '-' ∧ subChar b = '-') := by
            rw [subChar_of_alnum hb]
            exact fun hand => ne_dash_of_alnum hb hand.2
          rw [collapseDashes, if_neg hne, ih, replaceRuns, if_neg ha, if_pos hb]
        · have heq : ('-' = '-' ∧ subChar b = '-') := ⟨rfl, subChar_of_not_alnum hb⟩
          rw [collapseDashes, if_pos heq, ih, replaceRuns, if_neg ha, if_neg hb]

/-! ## Claim theorems -/

/-- C2 counterexample: the ASCII label a1 followed by a newline does not
end in a digit, so the claim predicts the fallback (strip non-alphanumeric
characters and lowercase, giving a1); but Python's `$` in
`re.search(r'(\\d+)$', day_str)` also matches just before a newline that
ends the string, so the code extracts the digit run 1. -/
theorem iyc_C2_counterexample :
    endsInDigit "a1\n" = false ∧
    generate_day_id "a1\n" = "1" ∧
    ((("a1\n").data.filter Char.isAlphanum).map Char.toLower).asString = "a1" ∧
    generate_day_id "a1\n" ≠
      ((("a1\n").data.filter Char.isAlphanum).map Char.toLower).asString :=
  ⟨by decide, by decide, by decide, by decide⟩

/-- C2 amended: for every day label, the generated day identifier is the
maximal trailing run of decimal digits of the label after discounting a
single final newline (the two positions Python's `$` matches) whenever
that run is non-empty — i.e. whenever the label ends in a digit once at
most one final newline is dropped; otherwise it is the whole label with
non-alphanumeric characters removed and the remainder lowercased. -/
theorem iyc_C2_amended (s : String) :
    (endsInDigit (stripFinalNewline s) = true →
      isMaxTrailingDigitRun (stripFinalNewline s) (generate_day_id s)) ∧
    (endsInDigit (stripFinalNewline s) = false →
      generate_day_id s = ((s.data.filter Char.isAlphanum).map Char.toLower).asString) := by
  have hget : (stripFinalNewline s).data.getLast? = (stripFinalNewline s).data.reverse.head? :=
    (List.head?_reverse (stripFinalNewline s).data).symm
  rcases hr : (stripFinalNewline s).data.reverse with _ | ⟨c, r'⟩
  · have hnil : (stripFinalNewline s).data.getLast? = none := by rw [hget, hr]; rfl
    constructor
    · intro h
      unfold endsInDigit at h
      rw [hnil] at h
      simp at h
    · intro _
      unfold generate_day_id trailingDigitRun
      rw [hr]
      rfl
  · have hhead : (stripFinalNewline s).data.getLast? = some c := by rw [hget, hr]; rfl
    by_cases hc : c.isDigit = true
    · constructor
      · intro _
        have htw : (stripFinalNewline s).data.reverse.takeWhile Char.isDigit
            = c :: r'.takeWhile Char.isDigit := by
          rw [hr]
          exact List.takeWhile_cons_of_pos hc
        have htne : trailingDigitRun s ≠ [] := by
          unfold trailingDigitRun
          rw [htw]
          simp
        have hgen : generate_day_id s = (trailingDigitRun s).asString := by
          unfold generate_day_id
          have hemp : (trailingDigitRun s).isEmpty = false := by
            rw [List.isEmpty_eq_false]
            exact htne
          simp [hemp]
        rw [hgen]
        refine ⟨?_, ?_, ?_⟩
        · rw [data_asString]
          exact htne
        · intro c' hc'
          rw [data_asString] at hc'
          unfold trailingDigitRun at hc'
          rw [List.mem_reverse] at hc'
          exact List.mem_takeWhile_imp hc'
        · refine ⟨((stripFinalNewline s).data.reverse.dropWhile Char.isDigit).reverse, ?_, ?_⟩
          · rw [data_asString]
            unfold trailingDigitRun
            calc (stripFinalNewline s).data
                = ((stripFinalNewline s).data.reverse).reverse := (List.reverse_reverse _).symm
              _ = ((stripFinalNewline s).data.reverse.takeWhile Char.isDigit
                    ++ (stripFinalNewline s).data.reverse.dropWhile Char.isDigit).reverse := by
                  rw [List.takeWhile_append_dropWhile]
              _ = ((stripFinalNewline s).data.reverse.dropWhile Char.isDigit).reverse
                    ++ ((stripFinalNewline s).data.reverse.takeWhile Char.isDigit).reverse := by
                  rw [List.reverse_append]
          · rcases hdw : (stripFinalNewline s).data.reverse.dropWhile Char.isDigit
                with _ | ⟨d, dw'⟩
            · left
              rfl
            · right
              refine ⟨d, ?_, ?_⟩
              · rw [List.getLast?_reverse]
                rfl
              · exact head?_dropWhile_eq_some_false Char.isDigit
                  (stripFinalNewline s).data.reverse d (by rw [hdw]; rfl)
      · intro h
        unfold endsInDigit at h
        rw [hhead] at h
        simp at h
        simp [hc] at h
    · constructor
      · intro h
        unfold endsInDigit at h
        rw [hhead] at h
        simp at h
        exact absurd h hc
      · intro _
        have htw : (stripFinalNewline s).data.reverse.takeWhile Char.isDigit = [] := by
          rw [hr]
          exact List.takeWhile_cons_of_neg hc
        simp [generate_day_id, trailingDigitRun, htw]

/-- C2 witness: at the label Day 12 the identifier is the maximal trailing
digit run; at a1 followed by a newline the run is taken of the body before
the final newline; at the digit-free label d? the fallback branch strips
and lowercases. -/
theorem iyc_C2_witness :
    (endsInDigit (stripFinalNewline "Day 12") = true ∧
      isMaxTrailingDigitRun (stripFinalNewline "Day 12") (generate_day_id "Day 12")) ∧
    (endsInDigit (stripFinalNewline "a1\n") = true ∧
      isMaxTrailingDigitRun (stripFinalNewline "a1\n") (generate_day_id "a1\n")) ∧
    (endsInDigit (stripFinalNewline "d?") = false ∧ generate_day_id "d?" = "d") :=
  ⟨⟨by decide, (iyc_C2_amended "Day 12").1 (by decide)⟩,
   ⟨by decide, (iyc_C2_amended "a1\n").1 (by decide)⟩,
   ⟨by decide, ((iyc_C2_amended "d?").2 (by decide)).trans (by decide)⟩⟩

/-- C3: for every day identifier and event name, the generated event
identifier is the day identifier, a hyphen, then the name lowercased with
every maximal run of non-alphanumeric characters replaced by a single
hyphen and leading/trailing hyphens stripped. -/
theorem iyc_C3 (day_id event_name : String) :
    generate_event_id day_id event_name =
      day_id ++ "-" ++ (stripDashes (replaceRuns (event_name.data.map Char.toLower))).asString := by
  unfold generate_event_id
  rw [collapseDashes_map_subChar]

/-- C9: a label with no trailing digit and no alphanumeric characters
generates the empty day identifier, such a day can actually be created,
and a name with no alphanumeric characters generates an event identifier
that is the day identifier followed by a bare hyphen. -/
theorem iyc_C9 :
    generate_day_id "???" = "" ∧
    add_day_pure [] { day := "???", date := "some date" } =
      .ok [{ id := "", day := "???", date := "some date", events := [] }] ∧
    generate_event_id "1" "!!!" = "1-" := by
  refine ⟨by decide, ?_, by decide⟩
  rfl

/-- C4 counterexample: with the backing file present but unreadable, the
load operation propagates an error instead of returning the empty
sequence — `open` is outside the `try` block of `read_schedule`. -/
theorem iyc_C4_counterexample :
    (read_schedule FileState.unreadable).2 = Except.error ApiError.osError ∧
    (read_schedule FileState.unreadable).2 ≠ Except.ok ([] : Schedule) :=
  ⟨rfl, fun h => Except.noConfusion h⟩

/-- C4 amended: loading returns the empty sequence when the backing file
is missing or holds malformed content, and the stored schedule when it is
well-formed; but an unreadable file makes the load raise past the store
layer. -/
theorem iyc_C4_amended :
    read_schedule FileState.missing = (FileState.content [], Except.ok []) ∧
    read_schedule FileState.malformed = (FileState.malformed, Except.ok []) ∧
    (∀ s : Schedule, read_schedule (FileState.content s) = (FileState.content s, Except.ok s)) ∧
    read_schedule FileState.unreadable = (FileState.unreadable, Except.error ApiError.osError) :=
  ⟨rfl, rfl, fun _ => rfl, rfl⟩

theorem eventFromJson_eventToJson (e : StoredEvent) :
    eventFromJson (eventToJson e) = some e := by
  obtain ⟨i, t, n, lk, ho, ofl⟩ := e
  cases lk <;> cases ho <;> cases ofl <;> rfl

theorem decodeList_map {α} (f : Json → Option α) (g : α → Json) (l : List α)
    (h : ∀ x ∈ l, f (g x) = some x) : decodeList f (l.map g) = some l := by
  induction l with
  | nil => rfl
  | cons a tl ih =>
    simp only [List.map_cons, decodeList]
    rw [h a (List.mem_cons_self a tl), ih (fun x hx => h x (List.mem_cons_of_mem a hx))]

theorem dayFromJson_dayToJson (d : StoredDay) :
    dayFromJson (dayToJson d) = some d := by
  obtain ⟨i, dy, dt, es⟩ := d
  simp only [dayToJson, dayFromJson]
  rw [decodeList_map eventFromJson eventToJson es (fun x _ => eventFromJson_eventToJson x)]

/-- C8: writing a schedule and reading it back yields exactly the
document that was written, and the JSON document a schedule serializes to
decodes back to an equal schedule (the serialization loses nothing). -/
theorem iyc_C8 (s : Schedule) (st : FileState) :
    read_schedule (write_schedule s st) = (FileState.content s, Except.ok s) ∧
    scheduleFromJson (scheduleToJson s) = some s := by
  refine ⟨rfl, ?_⟩
  simp only [scheduleToJson, scheduleFromJson]
  exact decodeList_map dayFromJson dayToJson s (fun x _ => dayFromJson_dayToJson x)

/-- C5: adding a day whose `day` label or `date` label is already present
fails with Conflict and leaves the persisted schedule unchanged; otherwise
the day (generated identifier, empty event list) is appended at the end
and the result saved. -/
theorem iyc_C5 (s : Schedule) (day_data : DayCreate) :
    ((∃ d ∈ s, d.day = day_data.day ∨ d.date = day_data.date) →
      add_day day_data (FileState.content s) =
        (FileState.content s, Except.error ApiError.conflict)) ∧
    ((∀ d ∈ s, d.day ≠ day_data.day ∧ d.date ≠ day_data.date) →
      add_day day_data (FileState.content s) =
        (FileState.content (s ++ [{ id := generate_day_id day_data.day,
                                    day := day_data.day, date := day_data.date, events := [] }]),
         Except.ok (s ++ [{ id := generate_day_id day_data.day,
                            day := day_data.day, date := day_data.date, events := [] }]))) := by
  have hstep : add_day day_data (FileState.content s) =
      (match add_day_pure s day_data with
        | .error e => (FileState.content s, .error e)
        | .ok s' => (FileState.content s', .ok s')) := rfl
  constructor
  · intro h
    rw [hstep]
    unfold add_day_pure
    rw [if_pos h]
  · intro h
    have hn : ¬ ∃ d ∈ s, d.day = day_data.day ∨ d.date = day_data.date := by
      rintro ⟨d, hd, hor⟩
      rcases hor with h1 | h2
      · exact (h d hd).1 h1
      · exact (h d hd).2 h2
    rw [hstep]
    unfold add_day_pure
    rw [if_neg hn]

/-- C5 witness: on a schedule holding one day (label Day 1, date D),
re-adding the label fails with Conflict leaving the file unchanged, and a
fresh day is appended at the end and saved. -/
theorem iyc_C5_witness :
    add_day { day := "Day 1", date := "X" }
        (FileState.content [{ id := "1", day := "Day 1", date := "D", events := [] }]) =
      (FileState.content [{ id := "1", day := "Day 1", date := "D", events := [] }],
       Except.error ApiError.conflict) ∧
    add_day { day := "Day 2", date := "E" }
        (FileState.content [{ id := "1", day := "Day 1", date := "D", events := [] }]) =
      (FileState.content [{ id := "1", day := "Day 1", date := "D", events := [] },
                          { id := "2", day := "Day 2", date := "E", events := [] }],
       Except.ok [{ id := "1", day := "Day 1", date := "D", events := [] },
                  { id := "2", day := "Day 2", date := "E", events := [] }]) :=
  ⟨(iyc_C5 _ _).1 (by decide), (iyc_C5 _ _).2 (by decide)⟩

theorem add_event_notFound (event_data : EventCreate) (s : Schedule)
    (h : ∀ d ∈ s, d.id ≠ event_data.day_id) :
    add_event event_data s = .error .dayNotFound := by
  induction s with
  | nil => rfl
  | cons d rest ih =>
    have hd : ¬ d.id = event_data.day_id := h d (List.mem_cons_self d rest)
    rw [add_event, if_neg hd, ih (fun x hx => h x (List.mem_cons_of_mem d hx))]

theorem add_event_found (event_data : EventCreate) (pre post : List StoredDay) (d : StoredDay)
    (hpre : ∀ x ∈ pre, x.id ≠ event_data.day_id) (hd : d.id = event_data.day_id) :
    add_event event_data (pre ++ d :: post) =
      if ∃ e ∈ d.events, e.name = event_data.name then .error .conflict
      else .ok (pre ++ { d with events := d.events ++ [mkStoredEvent d.id event_data] } :: post) := by
  induction pre with
  | nil =>
    simp only [List.nil_append]
    rw [add_event, if_pos hd]
  | cons a pre' ih =>
    have ha : ¬ a.id = event_data.day_id := hpre a (List.mem_cons_self a pre')
    simp only [List.cons_append]
    rw [add_event, if_neg ha, ih (fun x hx => hpre x (List.mem_cons_of_mem a hx))]
    by_cases hex : ∃ e ∈ d.events, e.name = event_data.name
    · simp only [if_pos hex]
    · simp only [if_neg hex]

/-- C6: adding an event fails with NotFound when no day carries the given
identifier; within the first day that does, it fails with Conflict when an
event of that name exists; otherwise the new event record is appended to
that day's list, its optional fields present exactly when the submitted
values are truthy, its identifier generated from the day identifier and
the name. -/
theorem iyc_C6 (event_data : EventCreate) (s : Schedule) :
    ((∀ d ∈ s, d.id ≠ event_data.day_id) → add_event event_data s = .error .dayNotFound) ∧
    (∀ pre d post, s = pre ++ d :: post → (∀ x ∈ pre, x.id ≠ event_data.day_id) →
      d.id = event_data.day_id →
      ((∃ e ∈ d.events, e.name = event_data.name) →
        add_event event_data s = .error .conflict) ∧
      ((∀ e ∈ d.events, e.name ≠ event_data.name) →
        add_event event_data s =
          .ok (pre ++ { d with events := d.events ++ [mkStoredEvent d.id event_data] } :: post) ∧
        (mkStoredEvent d.id event_data).link.isSome = truthyStr event_data.link ∧
        (mkStoredEvent d.id event_data).hasOutline =
          (if truthyBool event_data.hasOutline then some true else none) ∧
        (mkStoredEvent d.id event_data).id = generate_event_id d.id event_data.name)) := by
  constructor
  · exact add_event_notFound event_data s
  · intro pre d post hs hpre hd
    subst hs
    constructor
    · intro hex
      rw [add_event_found event_data pre post d hpre hd, if_pos hex]
    · intro hall
      have hnex : ¬ ∃ e ∈ d.events, e.name = event_data.name := by
        rintro ⟨e, he, hn⟩
        exact hall e he hn
      refine ⟨?_, ?_, ?_, rfl⟩
      · rw [add_event_found event_data pre post d hpre hd, if_neg hnex]
      · show (if truthyStr event_data.link then event_data.link else none).isSome
          = truthyStr event_data.link
        cases h : truthyStr event_data.link
        · rw [if_neg (by simp [h])]
          rfl
        · rw [if_pos (by simp [h])]
          cases hl : event_data.link
          · rw [hl] at h
            exact absurd h (by simp [truthyStr])
          · rfl
      · show (if truthyBool event_data.hasOutline then event_data.hasOutline else none)
          = (if truthyBool event_data.hasOutline then some true else none)
        cases h : truthyBool event_data.hasOutline
        · rfl
        · cases hh : event_data.hasOutline with
          | none =>
            rw [hh] at h
            exact absurd h (by simp [truthyBool])
          | some b =>
            rw [hh] at h
            have hb : b = true := by simpa [truthyBool] using h
            subst hb
            rfl

/-- C6 witness: on a day already holding event name a, re-adding name a
fails with Conflict; adding name B C succeeds, stores no link (the empty
string submitted is falsy) but keeps the truthy hasOutline flag, and
appends at the end of the day's list. -/
theorem iyc_C6_witness :
    add_event { day_id := "1", time := "t", name := "a" }
        [{ id := "1", day := "Day 1", date := "D",
           events := [{ id := "1-a", time := "t", name := "a" }] }] =
      .error .conflict ∧
    add_event { day_id := "1", time := "9am", name := "B C",
                link := some "", hasOutline := some true }
        [{ id := "1", day := "Day 1", date := "D",
           events := [{ id := "1-a", time := "t", name := "a" }] }] =
      .ok [{ id := "1", day := "Day 1", date := "D",
             events := [{ id := "1-a", time := "t", name := "a" },
                        { id := "1-b-c", time := "9am", name := "B C",
                          link := none, hasOutline := some true, outlineFile := none }] }] :=
  ⟨((iyc_C6 { day_id := "1", time := "t", name := "a" } _).2 [] _ [] rfl (by simp) rfl).1
      (by decide),
   (((iyc_C6 { day_id := "1", time := "9am", name := "B C",
               link := some "", hasOutline := some true } _).2 [] _ [] rfl (by simp) rfl).2
      (by decide)).1⟩

theorem fsExists_fsErase_le (fs : UploadsFS) (a n : String)
    (h : fsExists (fsErase fs a) n = true) : fsExists fs n = true := by
  rw [fsExists, List.any_eq_true] at h ⊢
  obtain ⟨p, hp, hpn⟩ := h
  exact ⟨p, (List.mem_filter.mp hp).1, hpn⟩

theorem fsExists_fsErase_absent (fs : UploadsFS) (a n : String)
    (h : fsExists fs n = false) : fsExists (fsErase fs a) n = false := by
  cases hh : fsExists (fsErase fs a) n
  · rfl
  · rw [fsExists_fsErase_le fs a n hh] at h
    exact h

theorem fsExists_fsErase_self (fs : UploadsFS) (n : String) :
    fsExists (fsErase fs n) n = false := by
  cases hh : fsExists (fsErase fs n) n
  · rfl
  · exfalso
    rw [fsExists, List.any_eq_true] at hh
    obtain ⟨p, hp, hpn⟩ := hh
    have := (List.mem_filter.mp hp).2
    simp at this hpn
    exact this hpn

theorem fsExists_removeEventDirs_absent (events : List StoredEvent) (fs : UploadsFS) (n : String)
    (h : fsExists fs n = false) : fsExists (removeEventDirs events fs) n = false := by
  induction events generalizing fs with
  | nil => exact h
  | cons x rest ih => exact ih (fsErase fs x.id) (fsExists_fsErase_absent fs x.id n h)

theorem fsExists_removeEventDirs (events : List StoredEvent) (fs : UploadsFS) (e : StoredEvent)
    (he : e ∈ events) : fsExists (removeEventDirs events fs) e.id = false := by
  induction events generalizing fs with
  | nil => cases he
  | cons x rest ih =>
    rcases List.mem_cons.mp he with rfl | hmem
    · exact fsExists_removeEventDirs_absent rest (fsErase fs e.id) e.id
        (fsExists_fsErase_self fs e.id)
    · exact ih (fsErase fs x.id) hmem

theorem delete_day_notFound (day_id : String) (fs : UploadsFS) (s : Schedule)
    (h : ∀ d ∈ s, d.id ≠ day_id) :
    delete_day day_id fs s = .error .dayNotFound := by
  induction s with
  | nil => rfl
  | cons d rest ih =>
    have hd : ¬ d.id = day_id := h d (List.mem_cons_self d rest)
    rw [delete_day, if_neg hd, ih (fun x hx => h x (List.mem_cons_of_mem d hx))]

theorem delete_day_found (day_id : String) (fs : UploadsFS) (pre post : List StoredDay)
    (d : StoredDay) (hpre : ∀ x ∈ pre, x.id ≠ day_id) (hd : d.id = day_id) :
    delete_day day_id fs (pre ++ d :: post) =
      .ok (pre ++ post, removeEventDirs d.events fs) := by
  induction pre with
  | nil =>
    simp only [List.nil_append]
    rw [delete_day, if_pos hd]
  | cons a pre' ih =>
    have ha : ¬ a.id = day_id := hpre a (List.mem_cons_self a pre')
    simp only [List.cons_append]
    rw [delete_day, if_neg ha, ih (fun x hx => hpre x (List.mem_cons_of_mem a hx))]

/-- C7: deleting a day fails with NotFound when no day carries the given
identifier; otherwise the first matching day is removed from the schedule
and, for every event of that day, no attachment directory named by that
event's identifier remains afterwards. -/
theorem iyc_C7 (day_id : String) (fs : UploadsFS) (s : Schedule) :
    ((∀ d ∈ s, d.id ≠ day_id) → delete_day day_id fs s = .error .dayNotFound) ∧
    (∀ pre d post, s = pre ++ d :: post → (∀ x ∈ pre, x.id ≠ day_id) → d.id = day_id →
      delete_day day_id fs s = .ok (pre ++ post, removeEventDirs d.events fs) ∧
      ∀ e ∈ d.events, fsExists (removeEventDirs d.events fs) e.id = false) := by
  constructor
  · exact delete_day_notFound day_id fs s
  · intro pre d post hs hpre hd
    subst hs
    exact ⟨delete_day_found day_id fs pre post d hpre hd,
           fun e he => fsExists_removeEventDirs d.events fs e he⟩

/-- C7 witness: deleting day 1 removes it from a two-day schedule, deletes
the attachment directory of its event 1-a, and leaves the unrelated
directory 2-b in place. -/
theorem iyc_C7_witness :
    delete_day "1" [("1-a", ["f"]), ("2-b", ["g"])]
        [{ id := "1", day := "Day 1", date := "D",
           events := [{ id := "1-a", time := "t", name := "a" }] },
         { id := "2", day := "Day 2", date := "E", events := [] }] =
      .ok ([{ id := "2", day := "Day 2", date := "E", events := [] }], [("2-b", ["g"])]) ∧
    fsExists (removeEventDirs [{ id := "1-a", time := "t", name := "a" }]
        [("1-a", ["f"]), ("2-b", ["g"])]) "1-a" = false :=
  ⟨((iyc_C7 "1" [("1-a", ["f"]), ("2-b", ["g"])] _).2 []
      { id := "1", day := "Day 1", date := "D",
        events := [{ id := "1-a", time := "t", name := "a" }] }
      [{ id := "2", day := "Day 2", date := "E", events := [] }] rfl (by simp) rfl).1,
   ((iyc_C7 "1" [("1-a", ["f"]), ("2-b", ["g"])] _).2 []
      { id := "1", day := "Day 1", date := "D",
        events := [{ id := "1-a", time := "t", name := "a" }] }
      [{ id := "2", day := "Day 2", date := "E", events := [] }] rfl (by simp) rfl).2
      { id := "1-a", time := "t", name := "a" } (by simp)⟩

theorem updateEventsList_notFound (sdid : String) (all : List StoredEvent) (event_id : String)
    (ev : Event) (fs : UploadsFS) (l : List StoredEvent) (h : ∀ x ∈ l, x.id ≠ event_id) :
    updateEventsList sdid all event_id ev fs l = .error .eventNotFound := by
  induction l with
  | nil => rfl
  | cons e rest ih =>
    have he : ¬ e.id = event_id := h e (List.mem_cons_self e rest)
    rw [updateEventsList, if_neg he, ih (fun x hx => h x (List.mem_cons_of_mem e hx))]

theorem updateEventsList_found (sdid : String) (all : List StoredEvent) (event_id : String)
    (ev : Event) (fs : UploadsFS) (epre epost : List StoredEvent) (e0 : StoredEvent)
    (hpre : ∀ x ∈ epre, x.id ≠ event_id) (he : e0.id = event_id) :
    updateEventsList sdid all event_id ev fs (epre ++ e0 :: epost) =
      if hasNameConflict all ev e0 then .error .conflict
      else .ok (epre ++ (updatedPair sdid event_id ev e0 fs).1 :: epost,
                (updatedPair sdid event_id ev e0 fs).2) := by
  induction epre with
  | nil =>
    simp only [List.nil_append]
    rw [updateEventsList, if_pos he]
    unfold updateExisting
    by_cases hc : hasNameConflict all ev e0
    · simp only [if_pos hc]
    · simp only [if_neg hc]
  | cons a epre' ih =>
    have ha : ¬ a.id = event_id := hpre a (List.mem_cons_self a epre')
    simp only [List.cons_append]
    rw [updateEventsList, if_neg ha, ih (fun x hx => hpre x (List.mem_cons_of_mem a hx))]
    by_cases hc : hasNameConflict all ev e0
    · simp only [if_pos hc]
    · simp only [if_neg hc]

theorem update_event_notFound (day_id event_id : String) (ev : Event) (fs : UploadsFS)
    (s : Schedule) (h : ∀ d ∈ s, d.id ≠ day_id) :
    update_event day_id event_id ev fs s = .error .dayNotFound := by
  induction s with
  | nil => rfl
  | cons d rest ih =>
    have hd : ¬ d.id = day_id := h d (List.mem_cons_self d rest)
    rw [update_event, if_neg hd, ih (fun x hx => h x (List.mem_cons_of_mem d hx))]

theorem update_event_found (day_id event_id : String) (ev : Event) (fs : UploadsFS)
    (pre post : List StoredDay) (d : StoredDay) (hpre : ∀ x ∈ pre, x.id ≠ day_id)
    (hd : d.id = day_id) :
    update_event day_id event_id ev fs (pre ++ d :: post) =
      match updateEventsList d.id d.events event_id ev fs d.events with
      | .error err => .error err
      | .ok (es, fs') => .ok (pre ++ { d with events := es } :: post, fs') := by
  induction pre with
  | nil =>
    simp only [List.nil_append]
    rw [update_event, if_pos hd]
  | cons a pre' ih =>
    have ha : ¬ a.id = day_id := hpre a (List.mem_cons_self a pre')
    simp only [List.cons_append]
    rw [update_event, if_neg ha, ih (fun x hx => hpre x (List.mem_cons_of_mem a hx))]
    rcases hu : updateEventsList d.id d.events event_id ev fs d.events with err | ⟨es, fs'⟩
    · rfl
    · rfl

theorem updateEventsList_ok_decomp (sdid : String) (all : List StoredEvent) (event_id : String)
    (ev : Event) (fs : UploadsFS) (l es : List StoredEvent) (fs' : UploadsFS)
    (h : updateEventsList sdid all event_id ev fs l = .ok (es, fs')) :
    ∃ epre e0 epost e', l = epre ++ e0 :: epost ∧ (∀ x ∈ epre, x.id ≠ event_id) ∧
      e0.id = event_id ∧ es = epre ++ e' :: epost := by
  induction l generalizing es fs' with
  | nil => cases h
  | cons e rest ih =>
    rw [updateEventsList] at h
    by_cases he : e.id = event_id
    · rw [if_pos he] at h
      rcases hu : updateExisting sdid all event_id ev e fs with err | ⟨e', fs''⟩
      · rw [hu] at h
        cases h
      · rw [hu] at h
        injection h with h1
        injection h1 with h2 h3
        exact ⟨[], e, rest, e', rfl, by simp, he, h2.symm⟩
    · rw [if_neg he] at h
      rcases hr : updateEventsList sdid all event_id ev fs rest with err | ⟨l', fs''⟩
      · rw [hr] at h
        cases h
      · rw [hr] at h
        injection h with h1
        injection h1 with h2 h3
        obtain ⟨epre, e0, epost, e', hl, hepre, he0, hes⟩ := ih l' fs'' hr
        refine ⟨e :: epre, e0, epost, e', by rw [hl]; rfl, ?_, he0, ?_⟩
        · intro x hx
          rcases List.mem_cons.mp hx with rfl | hx'
          · exact he
          · exact hepre x hx'
        · rw [← h2, hes]
          rfl

theorem update_event_ok_decomp (day_id event_id : String) (ev : Event) (fs : UploadsFS)
    (s s' : Schedule) (fs₂ : UploadsFS)
    (h : update_event day_id event_id ev fs s = .ok (s', fs₂)) :
    ∃ pre d post epre e0 epost e',
      s = pre ++ d :: post ∧ (∀ x ∈ pre, x.id ≠ day_id) ∧ d.id = day_id ∧
      d.events = epre ++ e0 :: epost ∧ (∀ x ∈ epre, x.id ≠ event_id) ∧ e0.id = event_id ∧
      s' = pre ++ { d with events := epre ++ e' :: epost } :: post := by
  induction s generalizing s' fs₂ with
  | nil => cases h
  | cons d rest ih =>
    rw [update_event] at h
    by_cases hd : d.id = day_id
    · rw [if_pos hd] at h
      rcases hu : updateEventsList d.id d.events event_id ev fs d.events with err | ⟨es, fs''⟩
      · rw [hu] at h
        cases h
      · rw [hu] at h
        injection h with h1
        injection h1 with h2 h3
        obtain ⟨epre, e0, epost, e', hl, hepre, he0, hes⟩ :=
          updateEventsList_ok_decomp d.id d.events event_id ev fs d.events es fs'' hu
        refine ⟨[], d, rest, epre, e0, epost, e', rfl, by simp, hd, hl, hepre, he0, ?_⟩
        rw [← h2, hes]
        rfl
    · rw [if_neg hd] at h
      rcases hr : update_event day_id event_id ev fs rest with err | ⟨s'', fs''⟩
      · rw [hr] at h
        cases h
      · rw [hr] at h
        injection h with h1
        injection h1 with h2 h3
        obtain ⟨pre, dd, post, epre, e0, epost, e', hs, hpre, hdd, hl, hepre, he0, hs'⟩ :=
          ih s'' fs'' hr
        refine ⟨d :: pre, dd, post, epre, e0, epost, e', by rw [hs]; rfl, ?_, hdd, hl, hepre, he0, ?_⟩
        · intro x hx
          rcases List.mem_cons.mp hx with rfl | hx'
          · exact hd
          · exact hpre x hx'
        · rw [← h2, hs']
          rfl

theorem find?_fsSet (g : UploadsFS) (n : String) (files : List String) :
    List.find? (fun p => p.1 = n) (fsSet g n files) = some (n, files) := by
  unfold fsSet fsErase
  induction g with
  | nil => simp [List.find?]
  | cons p g' ih =>
    rw [List.filter_cons]
    by_cases hp : p.1 = n
    · have hdec : (decide ¬ p.1 = n) = false := by simp [hp]
      rw [hdec]
      exact ih
    · have hdec : (decide ¬ p.1 = n) = true := by simp [hp]
      rw [hdec, if_pos rfl, List.cons_append, List.find?_cons_of_neg _ (by simp [hp])]
      exact ih

theorem fsGet_fsSet_self (g : UploadsFS) (n : String) (files : List String) :
    fsGet (fsSet g n files) n = files := by
  unfold fsGet
  rw [find?_fsSet]

theorem fsExists_append (f1 f2 : UploadsFS) (n : String) :
    fsExists (f1 ++ f2) n = (fsExists f1 n || fsExists f2 n) := by
  unfold fsExists
  exact List.any_append

theorem fsExists_fsSet_other (g : UploadsFS) (n m : String) (files : List String)
    (h : m ≠ n) : fsExists (fsSet g n files) m = fsExists (fsErase g n) m := by
  unfold fsSet
  rw [fsExists_append]
  have hone : fsExists [(n, files)] m = false := by
    simp [fsExists]
    exact fun e => h e.symm
  rw [hone, Bool.or_false]

theorem fsExists_fsMove_old (fs : UploadsFS) (old new : String) (h : new ≠ old) :
    fsExists (fsMove fs old new) old = false := by
  unfold fsMove
  rw [fsExists_fsSet_other _ _ _ _ (Ne.symm h)]
  exact fsExists_fsErase_absent _ new old (fsExists_fsErase_self fs old)

theorem mem_fsGet_fsMove (fs : UploadsFS) (old new : String) (f : String)
    (hf : f ∈ fsGet fs old) : f ∈ fsGet (fsMove fs old new) new := by
  unfold fsMove
  rw [fsGet_fsSet_self]
  exact List.mem_append_right _ hf

theorem migrateFiles_eq_of_cond (event_id new_event_id : String) (dict : StoredEvent)
    (fs : UploadsFS) (h1 : new_event_id ≠ event_id) (h2 : dict.outlineFile.isSome = true)
    (h3 : fsExists fs event_id = true) :
    (migrateFiles event_id new_event_id dict fs).2 = fsMove fs event_id new_event_id ∧
    ∀ p, dict.outlineFile = some p → p ≠ "" →
      (migrateFiles event_id new_event_id dict fs).1.outlineFile =
        some ("/uploads/" ++ new_event_id ++ "/" ++ lastPathComponent p) := by
  unfold migrateFiles
  rw [if_pos ⟨h1, h2⟩, if_pos h3]
  constructor
  · rfl
  · intro p hp hne
    rw [hp]
    simp [hne]

/-- C10: a successful event update replaces the located record in place:
the schedule decomposes around the first day whose identifier matches, that
day's event list decomposes around the first event whose identifier
matches, and the result is the same schedule with only that one position
replaced — the updated record at the same index, all other events of the
day and all other days untouched. -/
theorem iyc_C10 (day_id event_id : String) (ev : Event) (fs : UploadsFS)
    (s s' : Schedule) (fs' : UploadsFS)
    (h : update_event day_id event_id ev fs s = .ok (s', fs')) :
    ∃ pre d post epre e0 epost e',
      s = pre ++ d :: post ∧ (∀ x ∈ pre, x.id ≠ day_id) ∧ d.id = day_id ∧
      d.events = epre ++ e0 :: epost ∧ (∀ x ∈ epre, x.id ≠ event_id) ∧ e0.id = event_id ∧
      s' = pre ++ { d with events := epre ++ e' :: epost } :: post :=
  update_event_ok_decomp day_id event_id ev fs s s' fs' h

/-- C10 witness: a concrete successful update (changing only the time of
event 1-a) decomposes as an in-place replacement. -/
theorem iyc_C10_witness :
    ∃ pre d post epre e0 epost e',
      ([{ id := "1", day := "Day 1", date := "D",
          events := [{ id := "1-a", time := "t", name := "a" }] }] : Schedule) =
        pre ++ d :: post ∧ (∀ x ∈ pre, x.id ≠ "1") ∧ d.id = "1" ∧
      d.events = epre ++ e0 :: epost ∧ (∀ x ∈ epre, x.id ≠ "1-a") ∧ e0.id = "1-a" ∧
      ([{ id := "1", day := "Day 1", date := "D",
          events := [{ id := "1-a", time := "t2", name := "a" }] }] : Schedule) =
        pre ++ { d with events := epre ++ e' :: epost } :: post :=
  iyc_C10 "1" "1-a" { time := "t2", name := "a" } [] _ _ [] rfl

/-- C1 counterexample: renaming event a (stored with an outline) to b while
submitting hasOutline false and no outlineFile drops the outlineFile key
from the updated record, so although the identifier changes from 1-a to
1-b and the attachment directory 1-a exists, the directory is not migrated
(the uploads tree is returned unchanged, with no 1-b directory) and no
outlineFile path is rewritten. -/
theorem iyc_C1_counterexample :
    update_event "1" "1-a"
      { time := "t", name := "b", link := none, hasOutline := some false, outlineFile := none }
      [("1-a", ["f.pdf"])]
      [{ id := "1", day := "Day 1", date := "D",
         events := [{ id := "1-a", time := "t", name := "a", link := none,
                      hasOutline := some true, outlineFile := some "/uploads/1-a/f.pdf" }] }] =
      .ok ([{ id := "1", day := "Day 1", date := "D",
              events := [{ id := "1-b", time := "t", name := "b", link := none,
                           hasOutline := none, outlineFile := none }] }],
           [("1-a", ["f.pdf"])]) ∧
    ("1-b" : String) ≠ "1-a" ∧
    fsExists [("1-a", ["f.pdf"])] "1-a" = true ∧
    fsExists [("1-a", ["f.pdf"])] "1-b" = false :=
  ⟨rfl, by decide, rfl, rfl⟩

/-- C1 amended: updating an event fails with NotFound when the day or the
event identifier is absent; when the submitted name differs from the
stored one the identifier is regenerated from the stored day identifier
and the new name, and the update fails with Conflict when the new name is
carried by a different event of that day; on success the handler stores
the rebuilt record and, whenever the identifier changed, the REBUILT
RECORD STILL CARRIES AN outlineFile KEY, and the attachment directory
named by the old identifier exists, that directory's contents are moved
under the new identifier (the old directory disappearing) and the stored
outlineFile path, when non-empty, is rewritten to reference the new
identifier. -/
theorem iyc_C1_amended (day_id event_id : String) (ev : Event) (fs : UploadsFS) (s : Schedule) :
    ((∀ d ∈ s, d.id ≠ day_id) → update_event day_id event_id ev fs s = .error .dayNotFound) ∧
    (∀ pre d post, s = pre ++ d :: post → (∀ x ∈ pre, x.id ≠ day_id) → d.id = day_id →
      ((∀ x ∈ d.events, x.id ≠ event_id) →
        update_event day_id event_id ev fs s = .error .eventNotFound) ∧
      (∀ epre e0 epost, d.events = epre ++ e0 :: epost → (∀ x ∈ epre, x.id ≠ event_id) →
        e0.id = event_id →
        (e0.name ≠ ev.name →
          newIdFor d.id event_id e0 ev = generate_event_id d.id ev.name) ∧
        (hasNameConflict d.events ev e0 →
          update_event day_id event_id ev fs s = .error .conflict) ∧
        (¬ hasNameConflict d.events ev e0 →
          update_event day_id event_id ev fs s =
            .ok (pre ++ { d with events :=
                  epre ++ (updatedPair d.id event_id ev e0 fs).1 :: epost } :: post,
                 (updatedPair d.id event_id ev e0 fs).2) ∧
          (newIdFor d.id event_id e0 ev ≠ event_id →
            (buildEventDict (newIdFor d.id event_id e0 ev) ev e0).outlineFile.isSome = true →
            fsExists fs event_id = true →
            (updatedPair d.id event_id ev e0 fs).2 =
              fsMove fs event_id (newIdFor d.id event_id e0 ev) ∧
            fsExists ((updatedPair d.id event_id ev e0 fs).2) event_id = false ∧
            (∀ f ∈ fsGet fs event_id,
              f ∈ fsGet ((updatedPair d.id event_id ev e0 fs).2)
                    (newIdFor d.id event_id e0 ev)) ∧
            (∀ p, (buildEventDict (newIdFor d.id event_id e0 ev) ev e0).outlineFile = some p →
              p ≠ "" →
              (updatedPair d.id event_id ev e0 fs).1.outlineFile =
                some ("/uploads/" ++ newIdFor d.id event_id e0 ev ++ "/"
                      ++ lastPathComponent p)))))) := by
  constructor
  · exact update_event_notFound day_id event_id ev fs s
  · intro pre d post hs hpre hd
    subst hs
    have hfound := update_event_found day_id event_id ev fs pre post d hpre hd
    constructor
    · intro hnone
      rw [hfound, updateEventsList_notFound d.id d.events event_id ev fs d.events hnone]
    · intro epre e0 epost hev hepre he0
      have hinner := updateEventsList_found d.id d.events event_id ev fs epre epost e0 hepre he0
      refine ⟨?_, ?_, ?_⟩
      · intro hne
        rw [newIdFor, if_neg hne]
      · intro hc
        rw [if_pos hc] at hinner
        rw [hev] at hinner
        rw [hfound, hev, hinner]
      · intro hnc
        rw [if_neg hnc] at hinner
        rw [hev] at hinner
        have hup : updatedPair d.id event_id ev e0 fs =
            migrateFiles event_id (newIdFor d.id event_id e0 ev)
              (buildEventDict (newIdFor d.id event_id e0 ev) ev e0) fs := rfl
        refine ⟨?_, ?_⟩
        · rw [hfound, hev, hinner]
        · intro hid hsome hex
          have hmig := migrateFiles_eq_of_cond event_id (newIdFor d.id event_id e0 ev)
            (buildEventDict (newIdFor d.id event_id e0 ev) ev e0) fs hid hsome hex
          refine ⟨?_, ?_, ?_, ?_⟩
          · rw [hup]
            exact hmig.1
          · rw [hup, hmig.1]
            exact fsExists_fsMove_old fs event_id (newIdFor d.id event_id e0 ev) hid
          · intro f hf
            rw [hup, hmig.1]
            exact mem_fsGet_fsMove fs event_id (newIdFor d.id event_id e0 ev) f hf
          · intro p hp hne
            rw [hup]
            exact hmig.2 p hp hne

/-- C1 witness: renaming event a (stored with outline file f.pdf and a
truthy submitted hasOutline) to b changes the identifier to 1-b, keeps the
outlineFile key, and with directory 1-a present the migration branch fires:
the uploads state becomes the moved tree, the old directory is gone, the
file is under the new directory, and the stored path is rewritten. -/
theorem iyc_C1_witness :
    (updatedPair "1" "1-a"
        { time := "t", name := "b", link := none, hasOutline := some true, outlineFile := none }
        { id := "1-a", time := "t", name := "a", link := none,
          hasOutline := some true, outlineFile := some "/uploads/1-a/f.pdf" }
        [("1-a", ["f.pdf"])]).2 =
      fsMove [("1-a", ["f.pdf"])] "1-a"
        (newIdFor "1" "1-a"
          { id := "1-a", time := "t", name := "a", link := none,
            hasOutline := some true, outlineFile := some "/uploads/1-a/f.pdf" }
          { time := "t", name := "b", link := none, hasOutline := some true,
            outlineFile := none }) ∧
    fsExists ((updatedPair "1" "1-a"
        { time := "t", name := "b", link := none, hasOutline := some true, outlineFile := none }
        { id := "1-a", time := "t", name := "a", link := none,
          hasOutline := some true, outlineFile := some "/uploads/1-a/f.pdf" }
        [("1-a", ["f.pdf"])]).2) "1-a" = false ∧
    (updatedPair "1" "1-a"
        { time := "t", name := "b", link := none, hasOutline := some true, outlineFile := none }
        { id := "1-a", time := "t", name := "a", link := none,
          hasOutline := some true, outlineFile := some "/uploads/1-a/f.pdf" }
        [("1-a", ["f.pdf"])]).1.outlineFile = some "/uploads/1-b/f.pdf" := by
  have happ := (((iyc_C1_amended "1" "1-a"
      { time := "t", name := "b", link := none, hasOutline := some true, outlineFile := none }
      [("1-a", ["f.pdf"])]
      [{ id := "1", day := "Day 1", date := "D",
         events := [{ id := "1-a", time := "t", name := "a", link := none,
                      hasOutline := some true,
                      outlineFile := some "/uploads/1-a/f.pdf" }] }]).2
    [] _ [] rfl (by simp) rfl).2
    [] _ [] rfl (by simp) rfl).2.2 (by decide)
  have hmig := happ.2 (by decide) (by decide) (by decide)
  refine ⟨hmig.1, hmig.2.1, ?_⟩
  exact (hmig.2.2.2 "/uploads/1-a/f.pdf" rfl (by decide)).trans (by decide)
